import Mathlib

/-!
Verification of the `rust-assets` asset registry (`src/assets.rs`, `src/handle.rs`).

The registry is shallowly embedded: each Rust `HashMap` keyed by a handle
becomes an association list keyed by the handle's `u64` id (handle equality
and hashing consult only the id), the `HashSet` dirty set becomes a list with
id-based deduplicating insert, and the two mpsc channels become lists holding
the messages currently available to `try_iter`.  Machine integers are modeled
as `Nat` (the id counters only ever increment, so overflow is out of scope for
any realizable call sequence).  Collaborator-supplied code (`T::load`,
`T::write`, `G::convert`) is abstracted by explicit function parameters
`tyLoad`, `tyWrite`, `gconv`.  Paths are modeled as already-canonical `Nat`
names (`fs::canonicalize` is an external filesystem call).  A Rust panic
(`expect`) is modeled as `Except.error ()`.
-/

namespace RustAssets

/-- Association-list lookup, modeling `HashMap::get` keyed by a `Nat` key. -/
def alLookup {α : Type} : List (Nat × α) → Nat → Option α
  | [], _ => none
  | (k, v) :: rest, key => if k = key then some v else alLookup rest key

/-- Remove every binding of a key, modeling `HashMap::remove`. -/
def alRemove {α : Type} (k : Nat) : List (Nat × α) → List (Nat × α)
  | [] => []
  | e :: rest => if e.1 = k then alRemove k rest else e :: alRemove k rest

/-- Insert a binding, replacing any previous one, modeling `HashMap::insert`. -/
def alInsert {α : Type} (k : Nat) (v : α) (l : List (Nat × α)) : List (Nat × α) :=
  (k, v) :: alRemove k l

/-- Number of bindings of a key (1 for a well-formed map that holds the key). -/
def countKey {α : Type} (l : List (Nat × α)) (k : Nat) : Nat :=
  (l.filter (fun e => e.1 == k)).length

/-- Registration of a per-type function, modeling
`entry(TypeId::of::<T>()).or_insert_with(...)`: the registry only records
which type ids have a function, since the stored closure for a type is
determined by the type (`|path| Box::new(T::load(path))` resp. the downcasting
wrapper around `T::write`). -/
def regInsert (ty : Nat) (l : List Nat) : List Nat :=
  if ty ∈ l then l else ty :: l

/-- Rust `AssetHandle` (src/handle.rs): a process-unique id plus the `TypeId` of
the logical type `T` recorded at creation.  The `path` field of the Rust
struct is never read and the `PhantomData` tag has no runtime content, so
neither is modeled.  `clone` and `clone_typed` preserve both `id` and `ty_id`
(`clone_typed::<G>` keeps `TypeId::of::<T>` of the source). -/
structure AssetHandle where
  id : Nat
  tyId : Nat
deriving DecidableEq, Repr

/-- The impl `PartialEq for AssetHandle`: equality compares only the ids. -/
def AssetHandle.peq (a b : AssetHandle) : Bool :=
  a.id == b.id

/-- Constructor `AssetHandle::new`: takes the current value of the process-wide
`NEXT_ID` atomic and increments it (`fetch_add(1)`). -/
def AssetHandle.new (ty ctr : Nat) : AssetHandle × Nat :=
  (⟨ctr, ty⟩, ctr + 1)

/-- A `DynAsset = Box<dyn Asset>`: a boxed value whose concrete runtime type
is `ty` and whose payload is abstracted to a `Nat`.  `downcast_ref::<T>`
succeeds exactly when `ty` is `T`'s type id. -/
structure DynAsset where
  ty : Nat
  val : Nat
deriving DecidableEq, Repr

/-- Rust `ArcHandle` (src/assets.rs): shared ownership of a derived value with an
identity id drawn from the `ArcHandle` `NEXT_ID` counter; `gty` is the
runtime type of the boxed `dyn Any` payload (`downcast::<G>` succeeds exactly
when `gty` is `G`'s type id); equality compares only `arcId`. -/
structure ArcHandle where
  arcId : Nat
  gty : Nat
  val : Nat
deriving DecidableEq, Repr

/-- The operation `HashSet<AssetHandle>::insert`: if an element equal to `h` (same id) is
already present the set keeps the old element, otherwise `h` is added. -/
def dirtyInsert (h : AssetHandle) (l : List AssetHandle) : List AssetHandle :=
  if l.any (fun h2 => h2.id == h.id) then l else h :: l

/-- The `Assets` registry state (src/assets.rs, struct `Assets`).
`load_channel` holds the `(handle id, asset)` messages currently available on
the loaded-completion mpsc channel; `reload_channel` the watched-path change
notifications; `inflight` the spawned asynchronous loads whose worker thread
has not yet sent its completion (handle id, type id, path). -/
structure Assets where
  cache : List (Nat × DynAsset)
  render_cache : List (Nat × ArcHandle)
  load_handles : List (Nat × Nat)
  load_dirty : List AssetHandle
  load_channel : List (Nat × DynAsset)
  inflight : List (Nat × Nat × Nat)
  reload_functions : List Nat
  reload_handles : List (Nat × List AssetHandle)
  reload_channel : List Nat
  write_functions : List Nat
deriving Repr

/-- Method `Assets::new`: everything empty. -/
def Assets.init : Assets :=
  ⟨[], [], [], [], [], [], [], [], [], []⟩

/-- Method `Assets::insert`: allocate a fresh handle, box the value, store it. -/
def Assets.insert (ty v ctr : Nat) (s : Assets) : AssetHandle × Nat × Assets :=
  match AssetHandle.new ty ctr with
  | (h, ctr') => (h, ctr', { s with cache := alInsert h.id ⟨ty, v⟩ s.cache })

/-- Method `Assets::get`: look up by the untyped handle (id), then
`downcast_ref::<T>` — absent entry gives `None`, a present entry of the wrong
concrete type panics (`expect("could not downcast")`, modeled as `error`). -/
def Assets.get (h : AssetHandle) (s : Assets) : Except Unit (Option Nat) :=
  match alLookup s.cache h.id with
  | none => Except.ok none
  | some a => if a.ty = h.tyId then Except.ok (some a.val) else Except.error ()

/-- Method `Assets::get_mut`: first removes the render-cache entry for the handle
("invalidate gpu cache"), then inserts the handle into the dirty set ("set
dirty"), and only then looks the value up — so both side effects happen even
when the lookup comes back empty. -/
def Assets.get_mut (h : AssetHandle) (s : Assets) : Except Unit (Option Nat) × Assets :=
  let s' := { s with
    render_cache := alRemove h.id s.render_cache,
    load_dirty := dirtyInsert h s.load_dirty }
  (match alLookup s'.cache h.id with
   | none => Except.ok none
   | some a => if a.ty = h.tyId then Except.ok (some a.val) else Except.error (), s')

/-- A caller mutating through the reference returned by `get_mut`
(`if let Some(r) = assets.get_mut(h) { *r = v }`): mutation through `&mut T`
keeps the concrete type, which in the successful branch equals `h.tyId`. -/
def Assets.get_mut_set (h : AssetHandle) (v : Nat) (s : Assets) : Assets :=
  match Assets.get_mut h s with
  | (Except.ok (some _), s') => { s' with cache := alInsert h.id ⟨h.tyId, v⟩ s'.cache }
  | (_, s') => s'

/-- Method `Assets::watch` (private): registers the path with the filesystem watcher
(external effect), appends the handle to the path's `Vec` in `reload_handles`
(`entry(path).or_default(); handles.push(...)`), and registers the per-type
load function. -/
def Assets.watch (h : AssetHandle) (path : Nat) (s : Assets) : Assets :=
  { s with
    reload_handles :=
      alInsert path ((alLookup s.reload_handles path).getD [] ++ [h]) s.reload_handles,
    reload_functions := regInsert h.tyId s.reload_functions }

/-- Method `Assets::write` (private): binds the handle to its write path in
`load_handles` and registers the per-type write function. -/
def Assets.write (h : AssetHandle) (path : Nat) (s : Assets) : Assets :=
  { s with
    load_handles := alInsert h.id path s.load_handles,
    write_functions := regInsert h.tyId s.write_functions }

/-- Method `Assets::load_sync` (and the `sync = true` branch of `Assets::load`):
loads `T::load(path)` on the calling thread, allocates a fresh handle, stores
the value present, then optionally binds watch and write. -/
def Assets.load_sync (tyLoad : Nat → Nat → Nat) (ty path : Nat)
    (watchFlag writeFlag : Bool) (ctr : Nat) (s : Assets) : AssetHandle × Nat × Assets :=
  match AssetHandle.new ty ctr with
  | (h, ctr') =>
    let s1 := { s with cache := alInsert h.id ⟨ty, tyLoad ty path⟩ s.cache }
    let s2 := if watchFlag then s1.watch h path else s1
    let s3 := if writeFlag then s2.write h path else s2
    (h, ctr', s3)

/-- Method `Assets::load_async` (and the `sync = false` branch of `Assets::load`):
allocates a fresh handle, spawns a worker thread that will later send
`(handle, T::load(path))` on the loaded channel (recorded in `inflight`; the
arrival is it own step, `Assets.deliver`), then optionally binds watch and
write.  Nothing is stored in `cache` yet: pending is modeled by absence. -/
def Assets.load_async (ty path : Nat) (watchFlag writeFlag : Bool) (ctr : Nat)
    (s : Assets) : AssetHandle × Nat × Assets :=
  match AssetHandle.new ty ctr with
  | (h, ctr') =>
    let s1 := { s with inflight := s.inflight ++ [(h.id, ty, path)] }
    let s2 := if watchFlag then s1.watch h path else s1
    let s3 := if writeFlag then s2.write h path else s2
    (h, ctr', s3)

/-- Method `Assets::load`: dispatches on the `sync` flag between the synchronous and
asynchronous pipelines (its body inlines exactly their code). -/
def Assets.load (tyLoad : Nat → Nat → Nat) (ty path : Nat)
    (watchFlag writeFlag syncFlag : Bool) (ctr : Nat) (s : Assets) :
    AssetHandle × Nat × Assets :=
  if syncFlag then Assets.load_sync tyLoad ty path watchFlag writeFlag ctr s
  else Assets.load_async ty path watchFlag writeFlag ctr s

/-- A worker thread's `send` arriving on the loaded channel: message `i` of
the in-flight pool (threads race, so any order is possible) is delivered as
`(handle, Box::new(T::load(path)))`. -/
def Assets.deliver (tyLoad : Nat → Nat → Nat) (i : Nat) (s : Assets) : Assets :=
  match s.inflight.get? i with
  | none => s
  | some f =>
    { s with
      inflight := s.inflight.eraseIdx i,
      load_channel := s.load_channel ++ [(f.1, ⟨f.2.1, tyLoad f.2.1 f.2.2⟩)] }

/-- Method `Assets::force_reload`: sends the path on the reload channel.  The
debounced watcher callback performs the identical `send` for a settled
filesystem change, so this step also models watcher notifications. -/
def Assets.force_reload (path : Nat) (s : Assets) : Assets :=
  { s with reload_channel := s.reload_channel ++ [path] }

/-- One message processed by `poll_loaded`: overwrite the store entry and
remove any render-cache entry for that handle. -/
def applyLoaded (cr : List (Nat × DynAsset) × List (Nat × ArcHandle))
    (msg : Nat × DynAsset) : List (Nat × DynAsset) × List (Nat × ArcHandle) :=
  (alInsert msg.1 msg.2 cr.1, alRemove msg.1 cr.2)

/-- Method `Assets::poll_loaded`: drains all currently available completions in
arrival order, inserting each into the cache and invalidating the render
cache for its handle. -/
def Assets.poll_loaded (s : Assets) : Assets :=
  let cr := s.load_channel.foldl applyLoaded (s.cache, s.render_cache)
  { s with cache := cr.1, render_cache := cr.2, load_channel := [] }

/-- One attempted write-back, as recorded when `poll_write` invokes the
registered write function: the handle written, the type id whose function was
invoked, the in-memory payload passed to it, and the bound path. -/
structure WriteEvent where
  hid : Nat
  ty : Nat
  val : Nat
  path : Nat
deriving DecidableEq, Repr

/-- The loop body of `Assets::poll_write` over the drained dirty set: a dirty
handle with no bound path is skipped; a bound handle whose value is not
loaded is skipped ("write if loaded"); otherwise the write function for the
handle's type id is fetched — `expect("could not get write fn")` panics if it
was never registered — and invoked with the current value and the path
(mutating the asset through `&mut`, abstracted by `tyWrite`). -/
def pollWriteGo (tyWrite : Nat → Nat → Nat → Nat) (wfns : List Nat)
    (lhandles : List (Nat × Nat)) :
    List AssetHandle → List (Nat × DynAsset) → List WriteEvent →
    Except Unit (List (Nat × DynAsset) × List WriteEvent)
  | [], c, evs => Except.ok (c, evs)
  | h :: rest, c, evs =>
    match alLookup lhandles h.id with
    | none => pollWriteGo tyWrite wfns lhandles rest c evs
    | some path =>
      match alLookup c h.id with
      | none => pollWriteGo tyWrite wfns lhandles rest c evs
      | some a =>
        if h.tyId ∈ wfns then
          pollWriteGo tyWrite wfns lhandles rest
            (alInsert h.id ⟨a.ty, tyWrite h.tyId a.val path⟩ c)
            (evs ++ [⟨h.id, h.tyId, a.val, path⟩])
        else Except.error ()

/-- Method `Assets::poll_write`: `self.load_dirty.drain()` takes the whole dirty set
(leaving it empty) and processes each element; the attempted writes are
returned as events. -/
def Assets.poll_write (tyWrite : Nat → Nat → Nat → Nat) (s : Assets) :
    Except Unit (Assets × List WriteEvent) :=
  match pollWriteGo tyWrite s.write_functions s.load_handles s.load_dirty s.cache [] with
  | Except.error e => Except.error e
  | Except.ok (c, evs) => Except.ok ({ s with cache := c, load_dirty := [] }, evs)

/-- The inner loop of `Assets::poll_reload` over the handles bound to one
changed path: the per-type load function is fetched — `expect("could not get
loader fn")` panics if it was never registered — then the freshly loaded
value replaces the store entry and the render-cache entry is removed. -/
def reloadOne (tyLoad : Nat → Nat → Nat) (rfns : List Nat) (path : Nat) :
    List AssetHandle → List (Nat × DynAsset) × List (Nat × ArcHandle) →
    Except Unit (List (Nat × DynAsset) × List (Nat × ArcHandle))
  | [], cr => Except.ok cr
  | h :: rest, (c, r) =>
    if h.tyId ∈ rfns then
      reloadOne tyLoad rfns path rest
        (alInsert h.id ⟨h.tyId, tyLoad h.tyId path⟩ c, alRemove h.id r)
    else Except.error ()

/-- The outer loop of `Assets::poll_reload` over the drained path
notifications: a path with no bound handles is ignored. -/
def pollReloadGo (tyLoad : Nat → Nat → Nat) (rfns : List Nat)
    (rhandles : List (Nat × List AssetHandle)) :
    List Nat → List (Nat × DynAsset) × List (Nat × ArcHandle) →
    Except Unit (List (Nat × DynAsset) × List (Nat × ArcHandle))
  | [], cr => Except.ok cr
  | path :: rest, cr =>
    match alLookup rhandles path with
    | none => pollReloadGo tyLoad rfns rhandles rest cr
    | some hs =>
      match reloadOne tyLoad rfns path hs cr with
      | Except.error e => Except.error e
      | Except.ok cr' => pollReloadGo tyLoad rfns rhandles rest cr'

/-- Method `Assets::poll_reload`: drains all pending change notifications. -/
def Assets.poll_reload (tyLoad : Nat → Nat → Nat) (s : Assets) : Except Unit Assets :=
  match pollReloadGo tyLoad s.reload_functions s.reload_handles s.reload_channel
      (s.cache, s.render_cache) with
  | Except.error e => Except.error e
  | Except.ok cr =>
    Except.ok { s with cache := cr.1, render_cache := cr.2, reload_channel := [] }

/-- Method `Assets::convert`: if no render-cache entry exists for the source handle,
fetch the live source (`self.get`), and if present compute `G::convert(asset,
params)`, wrap it in a fresh `ArcHandle` (drawing from the `ArcHandle`
`NEXT_ID` counter) and insert it; finally return the (possibly just created)
entry downcast to `G` — the downcast panics if the entry's payload type is
not `G`.  The returned `Bool` records whether the conversion function ran. -/
def Assets.convert (gty : Nat) (gconv : Nat → Nat → Nat) (h : AssetHandle)
    (params : Nat) (arcCtr : Nat) (s : Assets) :
    Except Unit (Option ArcHandle) × Nat × Assets × Bool :=
  let phase1 : Assets × Nat × Bool × Bool :=
    if (alLookup s.render_cache h.id).isSome then (s, arcCtr, false, false)
    else
      match Assets.get h s with
      | Except.error _ => (s, arcCtr, false, true)
      | Except.ok none => (s, arcCtr, false, false)
      | Except.ok (some v) =>
        ({ s with render_cache := alInsert h.id ⟨arcCtr, gty, gconv v params⟩ s.render_cache },
         arcCtr + 1, true, false)
  match phase1 with
  | (s1, arcCtr1, invoked, panicked) =>
    let res : Except Unit (Option ArcHandle) :=
      if panicked then Except.error ()
      else
        match alLookup s1.render_cache h.id with
        | none => Except.ok none
        | some a => if a.gty = gty then Except.ok (some a) else Except.error ()
    (res, arcCtr1, s1, invoked)

/-- Whether an `Except` result is a normal return (`true`) or a panic. -/
def exceptOk {α : Type} : Except Unit α → Bool
  | Except.ok _ => true
  | Except.error _ => false

/-!
Process-level semantics.  The handle counter `NEXT_ID` in src/handle.rs and
the `ArcHandle` counter `NEXT_ID` in src/assets.rs are process-wide statics,
shared by every registry in the process, so they live outside the `Assets`
state.  `issued` collects every handle ever returned by `insert` or a load
call; API calls taking a handle argument refer to an issued handle by its
position, since `AssetHandle::new` is `pub(crate)` and `clone`/`clone_typed`
preserve both `id` and `ty_id`, so a caller can only ever hold copies of
issued handles.
-/

/-- A process owning one registry under scrutiny (plus, possibly, further
registries that share the handle counter, see `Op.otherRegistryOp`). -/
structure Proc where
  assets : Assets
  ctr : Nat
  arcCtr : Nat
  issued : List AssetHandle

/-- Fresh process: counters at 0 (`AtomicU64::new(0)`), empty registry. -/
def Proc.init : Proc :=
  ⟨Assets.init, 0, 0, []⟩

/-- The observable API calls and environment events of one process.  Handle
arguments are positions into the issued-handle list; `deliverOp` is a worker
thread's completion arriving on the loaded channel; `otherRegistryOp` is a
handle allocation performed by a different registry of the same process
(which only touches the shared `NEXT_ID`). -/
inductive Op where
  | insertOp (ty v : Nat)
  | loadOp (ty path : Nat) (watchFlag writeFlag syncFlag : Bool)
  | getOp (i : Nat)
  | getMutOp (i : Nat)
  | getMutSetOp (i v : Nat)
  | convertOp (gty : Nat) (gconv : Nat → Nat → Nat) (i params : Nat)
  | pollLoadedOp
  | pollWriteOp
  | pollReloadOp
  | forceReloadOp (path : Nat)
  | deliverOp (i : Nat)
  | otherRegistryOp (ty : Nat)

/-- One step of the process.  A panicking poll aborts the process, so no
later state exists; the aborted step is modeled as a stutter (the states it
would make reachable are already reachable without it). -/
def step (tyLoad : Nat → Nat → Nat) (tyWrite : Nat → Nat → Nat → Nat)
    (p : Proc) : Op → Proc
  | Op.insertOp ty v =>
    match Assets.insert ty v p.ctr p.assets with
    | (h, c', s') => { p with assets := s', ctr := c', issued := p.issued ++ [h] }
  | Op.loadOp ty path watchFlag writeFlag syncFlag =>
    match Assets.load tyLoad ty path watchFlag writeFlag syncFlag p.ctr p.assets with
    | (h, c', s') => { p with assets := s', ctr := c', issued := p.issued ++ [h] }
  | Op.getOp i =>
    match p.issued.get? i with
    | none => p
    | some h =>
      match Assets.get h p.assets with
      | _ => p
  | Op.getMutOp i =>
    match p.issued.get? i with
    | none => p
    | some h => { p with assets := (Assets.get_mut h p.assets).2 }
  | Op.getMutSetOp i v =>
    match p.issued.get? i with
    | none => p
    | some h => { p with assets := Assets.get_mut_set h v p.assets }
  | Op.convertOp gty gconv i params =>
    match p.issued.get? i with
    | none => p
    | some h =>
      match Assets.convert gty gconv h params p.arcCtr p.assets with
      | (_, c', s', _) => { p with assets := s', arcCtr := c' }
  | Op.pollLoadedOp => { p with assets := p.assets.poll_loaded }
  | Op.pollWriteOp =>
    match p.assets.poll_write tyWrite with
    | Except.error _ => p
    | Except.ok (s', _) => { p with assets := s' }
  | Op.pollReloadOp =>
    match p.assets.poll_reload tyLoad with
    | Except.error _ => p
    | Except.ok s' => { p with assets := s' }
  | Op.forceReloadOp path => { p with assets := p.assets.force_reload path }
  | Op.deliverOp i => { p with assets := p.assets.deliver tyLoad i }
  | Op.otherRegistryOp ty =>
    match AssetHandle.new ty p.ctr with
    | (h, c') => { p with ctr := c', issued := p.issued ++ [h] }

/-- Run a whole call/event sequence from process start. -/
def run (tyLoad : Nat → Nat → Nat) (tyWrite : Nat → Nat → Nat → Nat)
    (ops : List Op) : Proc :=
  ops.foldl (step tyLoad tyWrite) Proc.init

/-! Lemmas about the association-list model of `HashMap`. -/

theorem alLookup_alRemove_self {α : Type} (k : Nat) (l : List (Nat × α)) :
    alLookup (alRemove k l) k = none := by
  induction l with
  | nil => rfl
  | cons e rest ih =>
    by_cases he : e.1 = k
    · simpa [alRemove, he] using ih
    · simp [alRemove, alLookup, he, ih]

theorem alLookup_alRemove_ne {α : Type} {k k' : Nat} (l : List (Nat × α))
    (hne : k' ≠ k) : alLookup (alRemove k l) k' = alLookup l k' := by
  induction l with
  | nil => rfl
  | cons e rest ih =>
    obtain ⟨e1, e2⟩ := e
    by_cases he : e1 = k
    · have h2 : e1 ≠ k' := fun hc => hne (hc ▸ he)
      rw [alRemove, if_pos he, ih, alLookup, if_neg h2]
    · rw [alRemove, if_neg he, alLookup, alLookup]
      by_cases he' : e1 = k'
      · rw [if_pos he', if_pos he']
      · rw [if_neg he', if_neg he', ih]

theorem alLookup_alInsert_self {α : Type} (k : Nat) (v : α) (l : List (Nat × α)) :
    alLookup (alInsert k v l) k = some v := by
  simp [alInsert, alLookup]

theorem alLookup_alInsert_ne {α : Type} {k k' : Nat} (v : α) (l : List (Nat × α))
    (hne : k' ≠ k) : alLookup (alInsert k v l) k' = alLookup l k' := by
  simp [alInsert, alLookup, Ne.symm hne, alLookup_alRemove_ne l hne]

theorem alLookup_alInsert_isSome {α : Type} {k k' : Nat} (v : α) (l : List (Nat × α))
    (hs : (alLookup l k').isSome) : (alLookup (alInsert k v l) k').isSome := by
  by_cases hk : k' = k
  · subst hk; simp [alLookup_alInsert_self]
  · rwa [alLookup_alInsert_ne v l hk]

theorem alLookup_alRemove_isSome {α : Type} {k k' : Nat} (l : List (Nat × α))
    (hs : (alLookup (alRemove k l) k').isSome) : (alLookup l k').isSome := by
  by_cases hk : k' = k
  · subst hk; simp [alLookup_alRemove_self] at hs
  · rwa [alLookup_alRemove_ne l hk] at hs

theorem mem_alRemove {α : Type} {k : Nat} {e : Nat × α} {l : List (Nat × α)}
    (he : e ∈ alRemove k l) : e ∈ l := by
  induction l with
  | nil => simp [alRemove] at he
  | cons x rest ih =>
    by_cases hx : x.1 = k
    · simp only [alRemove, hx, if_pos rfl] at he
      exact List.mem_cons_of_mem _ (ih he)
    · simp only [alRemove, hx, if_neg hx] at he
      rcases List.mem_cons.mp he with h | h
      · exact h ▸ List.mem_cons_self _ _
      · exact List.mem_cons_of_mem _ (ih h)

theorem mem_alInsert {α : Type} {k : Nat} {v : α} {e : Nat × α} {l : List (Nat × α)}
    (he : e ∈ alInsert k v l) : e = (k, v) ∨ e ∈ l := by
  rcases List.mem_cons.mp he with h | h
  · exact Or.inl h
  · exact Or.inr (mem_alRemove h)

theorem alLookup_mem {α : Type} {l : List (Nat × α)} {k : Nat} {v : α}
    (h : alLookup l k = some v) : (k, v) ∈ l := by
  induction l with
  | nil => simp [alLookup] at h
  | cons e rest ih =>
    obtain ⟨e1, e2⟩ := e
    by_cases he : e1 = k
    · rw [alLookup, if_pos he] at h
      injection h with h2
      have : (e1, e2) = (k, v) := by rw [he, h2]
      exact this ▸ List.mem_cons_self _ _
    · rw [alLookup, if_neg he] at h
      exact List.mem_cons_of_mem _ (ih h)

theorem alLookup_none_of_big {α : Type} {l : List (Nat × α)} {n : Nat}
    (h : ∀ e ∈ l, e.1 < n) : alLookup l n = none := by
  induction l with
  | nil => rfl
  | cons e rest ih =>
    have h1 : e.1 ≠ n := Nat.ne_of_lt (h e (List.mem_cons_self _ _))
    simp only [alLookup, h1, if_neg h1]
    exact ih fun x hx => h x (List.mem_cons_of_mem _ hx)

theorem filter_alRemove_self {α : Type} (k : Nat) (l : List (Nat × α)) :
    (alRemove k l).filter (fun e => e.1 == k) = [] := by
  induction l with
  | nil => rfl
  | cons e rest ih =>
    obtain ⟨e1, e2⟩ := e
    by_cases he : e1 = k
    · rw [alRemove, if_pos he]; exact ih
    · have he' : (e1 == k) = false := by simpa using he
      rw [alRemove, if_neg he, List.filter_cons]
      simpa [he'] using ih

theorem filter_alRemove_ne {α : Type} {k k' : Nat} (l : List (Nat × α))
    (hne : k' ≠ k) :
    (alRemove k l).filter (fun e => e.1 == k') = l.filter (fun e => e.1 == k') := by
  induction l with
  | nil => rfl
  | cons e rest ih =>
    obtain ⟨e1, e2⟩ := e
    by_cases he : e1 = k
    · have h2 : ((e1, e2).1 == k') = false := by
        simp only []
        simp only [beq_eq_false_iff_ne, ne_eq]
        exact fun hc => hne (hc ▸ he)
      rw [alRemove, if_pos he, ih, List.filter_cons, h2]
      simp
    · rw [alRemove, if_neg he, List.filter_cons, List.filter_cons]
      by_cases he' : (e1 == k')
      · simp [he', ih]
      · simp only [Bool.not_eq_true] at he'
        simp [he', ih]

theorem countKey_alInsert_self {α : Type} (k : Nat) (v : α) (l : List (Nat × α)) :
    countKey (alInsert k v l) k = 1 := by
  simp [countKey, alInsert, List.filter_cons, filter_alRemove_self]

theorem countKey_alInsert_ne {α : Type} {k k' : Nat} (v : α) (l : List (Nat × α))
    (hne : k' ≠ k) : countKey (alInsert k v l) k' = countKey l k' := by
  have hk : ((k, v).1 == k') = false := by
    simp only [beq_eq_false_iff_ne, ne_eq]
    exact fun hc => hne hc.symm
  simp [countKey, alInsert, List.filter_cons, hk, filter_alRemove_ne l hne]

theorem mem_regInsert_self (ty : Nat) (l : List Nat) : ty ∈ regInsert ty l := by
  by_cases h : ty ∈ l <;> simp [regInsert, h]

theorem mem_regInsert_of_mem {ty ty' : Nat} {l : List Nat} (h : ty' ∈ l) :
    ty' ∈ regInsert ty l := by
  by_cases hm : ty ∈ l <;> simp [regInsert, hm, h]

theorem mem_dirtyInsert {h x : AssetHandle} {l : List AssetHandle}
    (hx : x ∈ dirtyInsert h l) : x = h ∨ x ∈ l := by
  by_cases hc : l.any (fun h2 => h2.id == h.id)
  · simp only [dirtyInsert, hc, if_pos hc] at hx
    exact Or.inr hx
  · simp only [dirtyInsert, hc, if_neg hc] at hx
    rcases List.mem_cons.mp hx with h1 | h1
    · exact Or.inl h1
    · exact Or.inr h1

theorem dirtyInsert_exists_id (h : AssetHandle) (l : List AssetHandle) :
    ∃ x ∈ dirtyInsert h l, x.id = h.id := by
  by_cases hc : l.any (fun h2 => h2.id == h.id)
  · rcases List.any_eq_true.mp hc with ⟨x, hx, hid⟩
    exact ⟨x, by simpa [dirtyInsert, hc] using hx, by simpa using hid⟩
  · exact ⟨h, by simp [dirtyInsert, hc], rfl⟩

theorem dirtyInsert_eq_cons {h : AssetHandle} {l : List AssetHandle}
    (hne : ∀ x ∈ l, x.id ≠ h.id) : dirtyInsert h l = h :: l := by
  have hc : l.any (fun h2 => h2.id == h.id) = false := by
    simp only [List.any_eq_false]
    intro x hx
    simpa using hne x hx
  simp [dirtyInsert, hc]

/-! Claim C10. -/

/-- C10: for a handle whose store entry is absent (never inserted or still
loading), `get_mut` returns nothing but still removes the render-cache entry
for the handle and inserts the handle into the dirty set — both side effects
precede the lookup and happen unconditionally. -/
theorem getMut_absent_still_dirties (h : AssetHandle) (s : Assets)
    (habs : alLookup s.cache h.id = none) :
    (Assets.get_mut h s).1 = Except.ok none ∧
    alLookup (Assets.get_mut h s).2.render_cache h.id = none ∧
    (∃ x ∈ (Assets.get_mut h s).2.load_dirty, x.id = h.id) := by
  refine ⟨?_, ?_, ?_⟩
  · simp [Assets.get_mut, habs]
  · simp [Assets.get_mut, alLookup_alRemove_self]
  · simpa [Assets.get_mut] using dirtyInsert_exists_id h s.load_dirty

/-- Witness for C10 at a concrete input: the fresh registry with handle 0. -/
theorem getMut_absent_still_dirties_witness :
    alLookup Assets.init.cache (0 : Nat) = none ∧
    ((Assets.get_mut ⟨0, 0⟩ Assets.init).1 = Except.ok none ∧
     alLookup (Assets.get_mut ⟨0, 0⟩ Assets.init).2.render_cache 0 = none ∧
     (∃ x ∈ (Assets.get_mut ⟨0, 0⟩ Assets.init).2.load_dirty, x.id = 0)) :=
  ⟨rfl, getMut_absent_still_dirties ⟨0, 0⟩ Assets.init rfl⟩

/-! Claim C9. -/

/-- C9: `get` is side-effect free: as a process step it leaves the whole
process state (store, render cache, dirty set, path and function registries,
channels, counters) unchanged, and its return value reads nothing but the
store — it computes identically on a state with everything except `cache`
reset. -/
theorem get_side_effect_free (tyLoad : Nat → Nat → Nat)
    (tyWrite : Nat → Nat → Nat → Nat) (p : Proc) (i : Nat)
    (h : AssetHandle) (s : Assets) :
    step tyLoad tyWrite p (Op.getOp i) = p ∧
    Assets.get h { Assets.init with cache := s.cache } = Assets.get h s := by
  constructor
  · simp only [step]
    cases p.issued.get? i <;> rfl
  · rfl

/-! Claim C3. -/

/-- C3: `convert` is memoized per source handle: when a derived-cache entry
`e` (of the requested derived type) exists for the source handle, two
consecutive `convert` calls — with possibly different `params`, which are not
part of the cache key — both return exactly `e` (hence equal `ArcHandle`
identities), leave state and `ArcHandle` counter unchanged, and the
conversion function is invoked zero times, so at most once. -/
theorem convert_memoized (gty : Nat) (gconv : Nat → Nat → Nat)
    (h : AssetHandle) (params1 params2 arcCtr : Nat) (s : Assets) (e : ArcHandle)
    (hent : alLookup s.render_cache h.id = some e) (hty : e.gty = gty) :
    Assets.convert gty gconv h params1 arcCtr s = (Except.ok (some e), arcCtr, s, false) ∧
    Assets.convert gty gconv h params2
        (Assets.convert gty gconv h params1 arcCtr s).2.1
        (Assets.convert gty gconv h params1 arcCtr s).2.2.1 =
      (Except.ok (some e), arcCtr, s, false) := by
  have hone : ∀ params : Nat,
      Assets.convert gty gconv h params arcCtr s = (Except.ok (some e), arcCtr, s, false) := by
    intro params
    simp [Assets.convert, hent, hty]
  refine ⟨hone params1, ?_⟩
  rw [hone params1]
  exact hone params2

/-- Witness for C3 at a concrete input: a registry whose render cache holds a
derived entry with `ArcHandle` id 7 for source handle 0. -/
theorem convert_memoized_witness :
    (alLookup (⟨[], [(0, ⟨7, 4, 11⟩)], [], [], [], [], [], [], [], []⟩ :
        Assets).render_cache (0 : Nat) = some ⟨7, 4, 11⟩ ∧
      (⟨7, 4, 11⟩ : ArcHandle).gty = 4) ∧
    (Assets.convert 4 (fun v _ => v) ⟨0, 5⟩ 1 9
        ⟨[], [(0, ⟨7, 4, 11⟩)], [], [], [], [], [], [], [], []⟩ =
      (Except.ok (some ⟨7, 4, 11⟩), 9, ⟨[], [(0, ⟨7, 4, 11⟩)], [], [], [], [], [], [], [], []⟩,
        false) ∧
     Assets.convert 4 (fun v _ => v) ⟨0, 5⟩ 2
        (Assets.convert 4 (fun v _ => v) ⟨0, 5⟩ 1 9
          ⟨[], [(0, ⟨7, 4, 11⟩)], [], [], [], [], [], [], [], []⟩).2.1
        (Assets.convert 4 (fun v _ => v) ⟨0, 5⟩ 1 9
          ⟨[], [(0, ⟨7, 4, 11⟩)], [], [], [], [], [], [], [], []⟩).2.2.1 =
      (Except.ok (some ⟨7, 4, 11⟩), 9, ⟨[], [(0, ⟨7, 4, 11⟩)], [], [], [], [], [], [], [], []⟩,
        false)) :=
  ⟨⟨rfl, rfl⟩, convert_memoized 4 (fun v _ => v) ⟨0, 5⟩ 1 2 9 _ ⟨7, 4, 11⟩ rfl rfl⟩

/-! Claim C2. -/

/-- C2 counterexample: after two watch requests on the same path 7 (first for
handle 0, then for handle 1), both handles are bound to the path — the second
request appended instead of overwriting, so the claim that exactly the most
recent handle stays bound is false. -/
theorem watch_overwrites_counterexample :
    alLookup ((Assets.init.watch ⟨0, 5⟩ 7).watch ⟨1, 5⟩ 7).reload_handles 7 =
      some [⟨0, 5⟩, ⟨1, 5⟩] ∧
    alLookup ((Assets.init.watch ⟨0, 5⟩ 7).watch ⟨1, 5⟩ 7).reload_handles 7 ≠
      some [⟨1, 5⟩] := by
  exact ⟨rfl, by decide⟩

/-- C2 (amended): a watch request on path `p` appends its handle to the list
of handles bound to `p` (creating the list if absent); so after any sequence
of watch requests on `p` every requested handle stays bound, in request
order, rather than only the most recent one. -/
theorem watch_appends (h : AssetHandle) (path : Nat) (s : Assets) :
    alLookup (s.watch h path).reload_handles path =
      some ((alLookup s.reload_handles path).getD [] ++ [h]) := by
  simp [Assets.watch, alLookup_alInsert_self]

/-! Claim C6: the completion drain of `poll_loaded`. -/

theorem foldLoaded_no_key {q : List (Nat × DynAsset)} {k : Nat}
    (hq : ∀ m ∈ q, m.1 ≠ k) :
    ∀ c r,
      alLookup (q.foldl applyLoaded (c, r)).1 k = alLookup c k ∧
      alLookup (q.foldl applyLoaded (c, r)).2 k = alLookup r k ∧
      countKey (q.foldl applyLoaded (c, r)).1 k = countKey c k := by
  induction q with
  | nil => exact fun c r => ⟨rfl, rfl, rfl⟩
  | cons m rest ih =>
    intro c r
    have hm : k ≠ m.1 := (hq m (List.mem_cons_self _ _)).symm
    have hrest : ∀ m' ∈ rest, m'.1 ≠ k := fun m' hm' => hq m' (List.mem_cons_of_mem _ hm')
    obtain ⟨h1, h2, h3⟩ := ih hrest (alInsert m.1 m.2 c) (alRemove m.1 r)
    refine ⟨?_, ?_, ?_⟩
    · rw [List.foldl_cons]
      simp only [applyLoaded]
      rw [h1, alLookup_alInsert_ne _ _ hm]
    · rw [List.foldl_cons]
      simp only [applyLoaded]
      rw [h2, alLookup_alRemove_ne _ hm]
    · rw [List.foldl_cons]
      simp only [applyLoaded]
      rw [h3, countKey_alInsert_ne _ _ hm]

theorem foldLoaded_last_key :
    ∀ (q : List (Nat × DynAsset)) (c : List (Nat × DynAsset))
      (r : List (Nat × ArcHandle)) {k : Nat} {v : DynAsset},
      q.filter (fun m => m.1 == k) = [(k, v)] →
      alLookup (q.foldl applyLoaded (c, r)).1 k = some v ∧
      alLookup (q.foldl applyLoaded (c, r)).2 k = none ∧
      countKey (q.foldl applyLoaded (c, r)).1 k = 1 := by
  intro q
  induction q with
  | nil => intro c r k v hf; simp [List.filter] at hf
  | cons m rest ih =>
    intro c r k v hf
    rw [List.filter_cons] at hf
    by_cases hm : (m.1 == k)
    · rw [if_pos hm] at hf
      have hmv : m = (k, v) := (List.cons.injEq _ _ _ _).mp hf |>.1
      have hrest0 : rest.filter (fun m' => m'.1 == k) = [] :=
        (List.cons.injEq _ _ _ _).mp hf |>.2
      have hrest : ∀ m' ∈ rest, m'.1 ≠ k := by
        intro m' hm'
        have := List.filter_eq_nil_iff.mp hrest0 m' hm'
        simpa using this
      obtain ⟨h1, h2, h3⟩ :=
        foldLoaded_no_key hrest (alInsert m.1 m.2 c) (alRemove m.1 r)
      subst hmv
      refine ⟨?_, ?_, ?_⟩
      · rw [List.foldl_cons]
        simp only [applyLoaded]
        rw [h1, alLookup_alInsert_self]
      · rw [List.foldl_cons]
        simp only [applyLoaded]
        rw [h2, alLookup_alRemove_self]
      · rw [List.foldl_cons]
        simp only [applyLoaded]
        rw [h3, countKey_alInsert_self]
    · rw [if_neg hm] at hf
      obtain ⟨h1, h2, h3⟩ := ih (alInsert m.1 m.2 c) (alRemove m.1 r) hf
      refine ⟨?_, ?_, ?_⟩ <;>
        · rw [List.foldl_cons]
          simp only [applyLoaded]
          first
          | exact h1
          | exact h2
          | exact h3

/-- C6: for a handle whose store entry is still absent (an asynchronous load
not yet drained), `get` returns nothing; once `poll_loaded` drains the
channel containing the completion `(h, v)` (the only message for `h`), the
loaded value is stored as the single present entry for `h`, any render-cache
entry for `h` is removed, the channel is left empty, and `get` thereafter
returns the loaded value — no value lost, no duplicate entry. -/
theorem poll_loaded_makes_async_visible (h : AssetHandle) (v : DynAsset) (s : Assets)
    (habs : alLookup s.cache h.id = none)
    (hq : s.load_channel.filter (fun m => m.1 == h.id) = [(h.id, v)])
    (hty : v.ty = h.tyId) :
    Assets.get h s = Except.ok none ∧
    alLookup s.poll_loaded.cache h.id = some v ∧
    alLookup s.poll_loaded.render_cache h.id = none ∧
    countKey s.poll_loaded.cache h.id = 1 ∧
    s.poll_loaded.load_channel = [] ∧
    Assets.get h s.poll_loaded = Except.ok (some v.val) := by
  obtain ⟨h1, h2, h3⟩ := foldLoaded_last_key s.load_channel s.cache s.render_cache hq
  have hc : alLookup s.poll_loaded.cache h.id = some v := by
    simpa [Assets.poll_loaded] using h1
  refine ⟨by simp [Assets.get, habs], hc, ?_, ?_, rfl, ?_⟩
  · simpa [Assets.poll_loaded] using h2
  · simpa [Assets.poll_loaded] using h3
  · simp [Assets.get, hc, hty]

/-- Witness for C6 at a concrete input: handle 0 of type 3, with the
completion `(0, value 9)` waiting on the loaded channel. -/
theorem poll_loaded_makes_async_visible_witness :
    (alLookup (⟨[], [], [], [], [(0, ⟨3, 9⟩)], [], [], [], [], []⟩ : Assets).cache
        ((⟨0, 3⟩ : AssetHandle)).id = none ∧
     (⟨[], [], [], [], [(0, ⟨3, 9⟩)], [], [], [], [], []⟩ :
         Assets).load_channel.filter (fun m => m.1 == (⟨0, 3⟩ : AssetHandle).id) =
       [((⟨0, 3⟩ : AssetHandle).id, ⟨3, 9⟩)] ∧
     (⟨3, 9⟩ : DynAsset).ty = (⟨0, 3⟩ : AssetHandle).tyId) ∧
    (Assets.get ⟨0, 3⟩ ⟨[], [], [], [], [(0, ⟨3, 9⟩)], [], [], [], [], []⟩ = Except.ok none ∧
     alLookup (⟨[], [], [], [], [(0, ⟨3, 9⟩)], [], [], [], [], []⟩ :
         Assets).poll_loaded.cache 0 = some ⟨3, 9⟩ ∧
     alLookup (⟨[], [], [], [], [(0, ⟨3, 9⟩)], [], [], [], [], []⟩ :
         Assets).poll_loaded.render_cache 0 = none ∧
     countKey (⟨[], [], [], [], [(0, ⟨3, 9⟩)], [], [], [], [], []⟩ :
         Assets).poll_loaded.cache 0 = 1 ∧
     (⟨[], [], [], [], [(0, ⟨3, 9⟩)], [], [], [], [], []⟩ :
         Assets).poll_loaded.load_channel = [] ∧
     Assets.get ⟨0, 3⟩ (⟨[], [], [], [], [(0, ⟨3, 9⟩)], [], [], [], [], []⟩ :
         Assets).poll_loaded = Except.ok (some 9)) :=
  ⟨⟨rfl, rfl, rfl⟩,
   poll_loaded_makes_async_visible ⟨0, 3⟩ ⟨3, 9⟩ _ rfl rfl rfl⟩

/-! Claims C4 and C5: the write-back flush. -/

/-- Full characterization of the `poll_write` loop over a drained dirty set
whose ids are distinct (as they always are for the `HashSet`-drained set) and
whose bound-and-loaded members all have a registered write function: the loop
succeeds, and the attempted writes are exactly one per dirty handle with a
bound path and a present value, carrying that value and that path. -/
theorem pollWriteGo_events (tyWrite : Nat → Nat → Nat → Nat) (wfns : List Nat)
    (lh : List (Nat × Nat)) :
    ∀ (L : List AssetHandle) (c : List (Nat × DynAsset)) (evs0 : List WriteEvent),
      (L.map (fun x => x.id)).Nodup →
      (∀ x ∈ L, (alLookup lh x.id).isSome → (alLookup c x.id).isSome →
        x.tyId ∈ wfns) →
      ∃ c' evs,
        pollWriteGo tyWrite wfns lh L c evs0 = Except.ok (c', evs0 ++ evs) ∧
        (∀ ev ∈ evs, ∃ x ∈ L, ev.hid = x.id ∧ ev.ty = x.tyId ∧
           alLookup lh x.id = some ev.path ∧
           ∃ a, alLookup c x.id = some a ∧ ev.val = a.val) ∧
        (∀ x ∈ L, ∀ p, alLookup lh x.id = some p →
           ∀ a, alLookup c x.id = some a →
           ∃ ev ∈ evs, ev.hid = x.id ∧ ev.path = p ∧ ev.val = a.val) := by
  intro L
  induction L with
  | nil =>
    intro c evs0 _ _
    refine ⟨c, [], by simp [pollWriteGo], by simp, by simp⟩
  | cons x rest ih =>
    intro c evs0 hnd hreg
    rw [List.map_cons, List.nodup_cons] at hnd
    obtain ⟨hxid, hnd'⟩ := hnd
    have hne : ∀ x' ∈ rest, x'.id ≠ x.id := by
      intro x' hx' hc
      exact hxid (List.mem_map.mpr ⟨x', hx', hc⟩)
    cases hl : alLookup lh x.id with
    | none =>
      obtain ⟨c', evs, hrun, hsound, hcomp⟩ := ih c evs0 hnd'
        (fun x' hx' => hreg x' (List.mem_cons_of_mem _ hx'))
      refine ⟨c', evs, by simp only [pollWriteGo, hl]; exact hrun, ?_, ?_⟩
      · intro ev hev
        obtain ⟨x', hx', hrest⟩ := hsound ev hev
        exact ⟨x', List.mem_cons_of_mem _ hx', hrest⟩
      · intro x' hx' p hp a ha
        rcases List.mem_cons.mp hx' with h1 | h1
        · subst h1; rw [hl] at hp; cases hp
        · exact hcomp x' h1 p hp a ha
    | some p =>
      cases hc : alLookup c x.id with
      | none =>
        obtain ⟨c', evs, hrun, hsound, hcomp⟩ := ih c evs0 hnd'
          (fun x' hx' => hreg x' (List.mem_cons_of_mem _ hx'))
        refine ⟨c', evs, by simp only [pollWriteGo, hl, hc]; exact hrun, ?_, ?_⟩
        · intro ev hev
          obtain ⟨x', hx', hrest⟩ := hsound ev hev
          exact ⟨x', List.mem_cons_of_mem _ hx', hrest⟩
        · intro x' hx' p' hp' a ha
          rcases List.mem_cons.mp hx' with h1 | h1
          · subst h1; rw [hc] at ha; cases ha
          · exact hcomp x' h1 p' hp' a ha
      | some a =>
        have hw : x.tyId ∈ wfns :=
          hreg x (List.mem_cons_self _ _) (by simp [hl]) (by simp [hc])
        have hlift : ∀ x' ∈ rest,
            alLookup (alInsert x.id ⟨a.ty, tyWrite x.tyId a.val p⟩ c) x'.id =
              alLookup c x'.id :=
          fun x' hx' => alLookup_alInsert_ne _ _ (hne x' hx')
        obtain ⟨c', evs, hrun, hsound, hcomp⟩ :=
          ih (alInsert x.id ⟨a.ty, tyWrite x.tyId a.val p⟩ c)
            (evs0 ++ [⟨x.id, x.tyId, a.val, p⟩]) hnd'
            (fun x' hx' hs1 hs2 =>
              hreg x' (List.mem_cons_of_mem _ hx') hs1 (by rwa [hlift x' hx'] at hs2))
        refine ⟨c', ⟨x.id, x.tyId, a.val, p⟩ :: evs, ?_, ?_, ?_⟩
        · simp only [pollWriteGo, hl, hc, if_pos hw]
          rw [hrun]
          simp
        · intro ev hev
          rcases List.mem_cons.mp hev with h1 | h1
          · exact ⟨x, List.mem_cons_self _ _, by simp [h1], by simp [h1],
              by simp [h1, hl], a, by simp [hc], by simp [h1]⟩
          · obtain ⟨x', hx', he1, he2, he3, a', ha', he4⟩ := hsound ev h1
            exact ⟨x', List.mem_cons_of_mem _ hx', he1, he2, he3, a',
              by rwa [hlift x' hx'] at ha', he4⟩
        · intro x' hx' p' hp' a' ha'
          rcases List.mem_cons.mp hx' with h1 | h1
          · subst h1
            rw [hl] at hp'
            rw [hc] at ha'
            cases hp'
            cases ha'
            exact ⟨⟨x'.id, x'.tyId, a.val, p⟩, List.mem_cons_self _ _, rfl, rfl, rfl⟩
          · obtain ⟨ev, hev, hevs⟩ :=
              hcomp x' h1 p' hp' a' (by rwa [hlift x' h1])
            exact ⟨ev, List.mem_cons_of_mem _ hev, hevs⟩

/-- C4 counterexample: handle 0 (type 5) is dirty, has a bound write path 2
and a registered write function for its type, yet `poll_write` attempts no
write at all — its value is absent from the store (e.g. still loading), and
the loop's "write if loaded" guard silently skips it, so the claim that every
dirty handle with a path and function gets its write invoked is false. -/
theorem poll_write_skips_unloaded_counterexample :
    Assets.poll_write (fun _ v _ => v)
        ⟨[], [], [(0, 2)], [⟨0, 5⟩], [], [], [], [], [], [5]⟩ =
      Except.ok (⟨[], [], [(0, 2)], [], [], [], [], [], [], [5]⟩, []) ∧
    (alLookup (⟨[], [], [(0, 2)], [⟨0, 5⟩], [], [], [], [], [], [5]⟩ :
        Assets).load_handles 0).isSome = true ∧
    (⟨0, 5⟩ : AssetHandle).tyId ∈ (⟨[], [], [(0, 2)], [⟨0, 5⟩], [], [], [], [], [], [5]⟩ :
        Assets).write_functions := by
  refine ⟨rfl, rfl, by decide⟩

/-- C4 (amended): `poll_write` takes ownership of the entire dirty set and
clears it; for each dirty handle that has a registered write path and write
function and whose value is present in the store, it invokes the write
function with the current in-memory value and that path; a dirty handle with
no bound write path — or whose value is absent from the store — is silently
skipped and causes no write. -/
theorem poll_write_flushes_dirty (tyWrite : Nat → Nat → Nat → Nat) (s : Assets)
    (hnd : (s.load_dirty.map (fun x => x.id)).Nodup)
    (hreg : ∀ x ∈ s.load_dirty, (alLookup s.load_handles x.id).isSome →
      (alLookup s.cache x.id).isSome → x.tyId ∈ s.write_functions) :
    ∃ s' evs, Assets.poll_write tyWrite s = Except.ok (s', evs) ∧
      s'.load_dirty = [] ∧
      (∀ ev ∈ evs, ∃ x ∈ s.load_dirty, ev.hid = x.id ∧ ev.ty = x.tyId ∧
         alLookup s.load_handles x.id = some ev.path ∧
         ∃ a, alLookup s.cache x.id = some a ∧ ev.val = a.val) ∧
      (∀ x ∈ s.load_dirty, ∀ p, alLookup s.load_handles x.id = some p →
         ∀ a, alLookup s.cache x.id = some a →
         ∃ ev ∈ evs, ev.hid = x.id ∧ ev.path = p ∧ ev.val = a.val) ∧
      (∀ x ∈ s.load_dirty, alLookup s.load_handles x.id = none →
         ∀ ev ∈ evs, ev.hid ≠ x.id) := by
  obtain ⟨c', evs, hrun, hsound, hcomp⟩ :=
    pollWriteGo_events tyWrite s.write_functions s.load_handles s.load_dirty s.cache []
      hnd hreg
  refine ⟨{ s with cache := c', load_dirty := [] }, evs, ?_, rfl, hsound, hcomp, ?_⟩
  · simp only [Assets.poll_write, hrun, List.nil_append]
  · intro x hx hnone ev hev hid
    obtain ⟨x', _, he1, _, he3, _⟩ := hsound ev hev
    rw [hid] at he1
    rw [he1] at hnone
    rw [hnone] at he3
    cases he3

/-- Witness for C4 (amended) at a concrete input: one dirty loaded handle
with a bound path, one dirty handle without a path. -/
theorem poll_write_flushes_dirty_witness :
    (((⟨[(0, ⟨5, 7⟩)], [], [(0, 2)], [⟨0, 5⟩, ⟨1, 5⟩], [], [], [], [], [], [5]⟩ :
        Assets).load_dirty.map (fun x => x.id)).Nodup ∧
     (∀ x ∈ (⟨[(0, ⟨5, 7⟩)], [], [(0, 2)], [⟨0, 5⟩, ⟨1, 5⟩], [], [], [], [], [], [5]⟩ :
        Assets).load_dirty,
        (alLookup (⟨[(0, ⟨5, 7⟩)], [], [(0, 2)], [⟨0, 5⟩, ⟨1, 5⟩], [], [], [], [], [], [5]⟩ :
          Assets).load_handles x.id).isSome →
        (alLookup (⟨[(0, ⟨5, 7⟩)], [], [(0, 2)], [⟨0, 5⟩, ⟨1, 5⟩], [], [], [], [], [], [5]⟩ :
          Assets).cache x.id).isSome →
        x.tyId ∈ (⟨[(0, ⟨5, 7⟩)], [], [(0, 2)], [⟨0, 5⟩, ⟨1, 5⟩], [], [], [], [], [], [5]⟩ :
          Assets).write_functions)) ∧
    (∃ s' evs,
      Assets.poll_write (fun _ v _ => v)
          (⟨[(0, ⟨5, 7⟩)], [], [(0, 2)], [⟨0, 5⟩, ⟨1, 5⟩], [], [], [], [], [], [5]⟩ :
            Assets) = Except.ok (s', evs) ∧
      s'.load_dirty = [] ∧
      (∀ ev ∈ evs, ∃ x ∈ (⟨[(0, ⟨5, 7⟩)], [], [(0, 2)], [⟨0, 5⟩, ⟨1, 5⟩], [], [], [], [], [], [5]⟩ :
          Assets).load_dirty, ev.hid = x.id ∧ ev.ty = x.tyId ∧
         alLookup (⟨[(0, ⟨5, 7⟩)], [], [(0, 2)], [⟨0, 5⟩, ⟨1, 5⟩], [], [], [], [], [], [5]⟩ :
           Assets).load_handles x.id = some ev.path ∧
         ∃ a, alLookup (⟨[(0, ⟨5, 7⟩)], [], [(0, 2)], [⟨0, 5⟩, ⟨1, 5⟩], [], [], [], [], [], [5]⟩ :
           Assets).cache x.id = some a ∧ ev.val = a.val) ∧
      (∀ x ∈ (⟨[(0, ⟨5, 7⟩)], [], [(0, 2)], [⟨0, 5⟩, ⟨1, 5⟩], [], [], [], [], [], [5]⟩ :
          Assets).load_dirty, ∀ p,
         alLookup (⟨[(0, ⟨5, 7⟩)], [], [(0, 2)], [⟨0, 5⟩, ⟨1, 5⟩], [], [], [], [], [], [5]⟩ :
           Assets).load_handles x.id = some p →
         ∀ a, alLookup (⟨[(0, ⟨5, 7⟩)], [], [(0, 2)], [⟨0, 5⟩, ⟨1, 5⟩], [], [], [], [], [], [5]⟩ :
           Assets).cache x.id = some a →
         ∃ ev ∈ evs, ev.hid = x.id ∧ ev.path = p ∧ ev.val = a.val) ∧
      (∀ x ∈ (⟨[(0, ⟨5, 7⟩)], [], [(0, 2)], [⟨0, 5⟩, ⟨1, 5⟩], [], [], [], [], [], [5]⟩ :
          Assets).load_dirty,
         alLookup (⟨[(0, ⟨5, 7⟩)], [], [(0, 2)], [⟨0, 5⟩, ⟨1, 5⟩], [], [], [], [], [], [5]⟩ :
           Assets).load_handles x.id = none →
         ∀ ev ∈ evs, ev.hid ≠ x.id)) :=
  ⟨⟨by decide, by decide⟩,
   poll_write_flushes_dirty (fun _ v _ => v) _ (by decide) (by decide)⟩

/-- C5 counterexample: handle 0 of type 5 is dirty, bound to write path 3,
and loaded with value 7, but no write function was ever registered for type
5; `poll_write` hits `expect("could not get write fn")` and panics, aborting
the whole batch instead of reporting the configuration error and moving on. -/
theorem poll_write_missing_fn_panics_counterexample :
    Assets.poll_write (fun _ v _ => v)
        ⟨[(0, ⟨5, 7⟩)], [], [(0, 3)], [⟨0, 5⟩], [], [], [], [], [], []⟩ =
      Except.error () := rfl

/-! Claim C1: get_mut marks dirty and invalidates the derived cache. -/

/-- C1 counterexample: handle 0 of type 5 has a bound write path 3 and a
registered write function but its value is absent from the store (an
asynchronous load not yet completed).  `get_mut` dirties it, yet the
subsequent `poll_write` attempts no write at all — so "poll_write attempts a
write for h iff a write path is bound" fails in the bound direction. -/
theorem getMut_write_iff_counterexample :
    (alLookup (Assets.get_mut ⟨0, 5⟩
        ⟨[], [], [(0, 3)], [], [], [], [], [], [], [5]⟩).2.load_handles 0).isSome = true ∧
    Assets.poll_write (fun _ v _ => v)
        (Assets.get_mut ⟨0, 5⟩ ⟨[], [], [(0, 3)], [], [], [], [], [], [], [5]⟩).2 =
      Except.ok (⟨[], [], [(0, 3)], [], [], [], [], [], [], [5]⟩, []) :=
  ⟨rfl, rfl⟩

/-- C1 (amended): for every handle `h` whose value is present in the store
(and whose registry state is API-consistent: `h` not already dirty, dirty ids
distinct, write functions registered for writable dirty handles), `get_mut h`
removes any derived-cache entry keyed by `h` and inserts `h` into the dirty
set even when the returned value is never modified; a subsequent `poll_write`
then attempts a write for `h` iff a write path is bound for `h`, and a
subsequent `convert` sourced from `h` invokes the conversion function again
(recomputes) instead of returning a previously memoized derived value.
When `h`'s value is absent the two side effects still happen (claim C10) but
`poll_write` skips `h` even when a path is bound. -/
theorem getMut_dirty_and_invalidate (tyWrite : Nat → Nat → Nat → Nat)
    (s : Assets) (h : AssetHandle) (a : DynAsset)
    (ha : alLookup s.cache h.id = some a) (hty : a.ty = h.tyId)
    (hfresh : ∀ x ∈ s.load_dirty, x.id ≠ h.id)
    (hreg : ∀ x ∈ dirtyInsert h s.load_dirty,
      (alLookup s.load_handles x.id).isSome →
      (alLookup s.cache x.id).isSome → x.tyId ∈ s.write_functions)
    (hnd : (s.load_dirty.map (fun x => x.id)).Nodup) :
    alLookup (Assets.get_mut h s).2.render_cache h.id = none ∧
    h ∈ (Assets.get_mut h s).2.load_dirty ∧
    (∃ s' evs, Assets.poll_write tyWrite (Assets.get_mut h s).2 = Except.ok (s', evs) ∧
      ((∃ ev ∈ evs, ev.hid = h.id) ↔ (alLookup s.load_handles h.id).isSome)) ∧
    (∀ gty : Nat, ∀ gconv : Nat → Nat → Nat, ∀ params arcCtr : Nat,
      (Assets.convert gty gconv h params arcCtr (Assets.get_mut h s).2).2.2.2 = true ∧
      (Assets.convert gty gconv h params arcCtr (Assets.get_mut h s).2).1 =
        Except.ok (some ⟨arcCtr, gty, gconv a.val params⟩)) := by
  have hs1 : (Assets.get_mut h s).2 =
      { s with render_cache := alRemove h.id s.render_cache,
               load_dirty := dirtyInsert h s.load_dirty } := rfl
  have hcons : dirtyInsert h s.load_dirty = h :: s.load_dirty :=
    dirtyInsert_eq_cons hfresh
  have hndc : ((h :: s.load_dirty).map (fun x => x.id)).Nodup := by
    rw [List.map_cons, List.nodup_cons]
    exact ⟨fun hmem => by
      obtain ⟨x, hx, hxid⟩ := List.mem_map.mp hmem
      exact hfresh x hx hxid, hnd⟩
  refine ⟨?_, ?_, ?_, ?_⟩
  · rw [hs1]
    exact alLookup_alRemove_self h.id s.render_cache
  · rw [hs1]
    simp only [hcons]
    exact List.mem_cons_self _ _
  · obtain ⟨c', evs, hrun, hsound, hcomp⟩ :=
      pollWriteGo_events tyWrite s.write_functions s.load_handles
        (h :: s.load_dirty) s.cache [] hndc (by rw [← hcons]; exact hreg)
    refine ⟨{ (Assets.get_mut h s).2 with cache := c', load_dirty := [] }, evs, ?_, ?_⟩
    · rw [hs1]
      simp only [Assets.poll_write, hcons, hrun, List.nil_append]
    · constructor
      · rintro ⟨ev, hev, hevid⟩
        obtain ⟨x, _, he1, _, he3, _⟩ := hsound ev hev
        rw [hevid] at he1
        rw [he1.symm] at he3
        simp [he3]
      · intro hbound
        obtain ⟨p, hp⟩ := Option.isSome_iff_exists.mp hbound
        obtain ⟨ev, hev, he1, _, _⟩ :=
          hcomp h (List.mem_cons_self _ _) p hp a ha
        exact ⟨ev, hev, he1⟩
  · intro gty gconv params arcCtr
    have hrc : alLookup (Assets.get_mut h s).2.render_cache h.id = none := by
      rw [hs1]
      exact alLookup_alRemove_self h.id s.render_cache
    have hget : Assets.get h (Assets.get_mut h s).2 = Except.ok (some a.val) := by
      rw [hs1]
      simp [Assets.get, ha, hty]
    constructor
    · simp [Assets.convert, hrc, hget, alLookup_alInsert_self]
    · simp [Assets.convert, hrc, hget, alLookup_alInsert_self]

/-- Witness for C1 (amended) at a concrete input: handle 0 of type 5 with
value 7 loaded, write path 3 bound, write function registered, and a
memoized derived entry with `ArcHandle` id 2 that must be evicted. -/
theorem getMut_dirty_and_invalidate_witness :
    (alLookup (⟨[(0, ⟨5, 7⟩)], [(0, ⟨2, 4, 9⟩)], [(0, 3)], [], [], [], [], [], [], [5]⟩ :
        Assets).cache (⟨0, 5⟩ : AssetHandle).id = some ⟨5, 7⟩ ∧
     (⟨5, 7⟩ : DynAsset).ty = (⟨0, 5⟩ : AssetHandle).tyId ∧
     (∀ x ∈ (⟨[(0, ⟨5, 7⟩)], [(0, ⟨2, 4, 9⟩)], [(0, 3)], [], [], [], [], [], [], [5]⟩ :
        Assets).load_dirty, x.id ≠ (⟨0, 5⟩ : AssetHandle).id) ∧
     (∀ x ∈ dirtyInsert ⟨0, 5⟩ (⟨[(0, ⟨5, 7⟩)], [(0, ⟨2, 4, 9⟩)], [(0, 3)], [], [], [], [], [], [], [5]⟩ :
        Assets).load_dirty,
        (alLookup (⟨[(0, ⟨5, 7⟩)], [(0, ⟨2, 4, 9⟩)], [(0, 3)], [], [], [], [], [], [], [5]⟩ :
          Assets).load_handles x.id).isSome →
        (alLookup (⟨[(0, ⟨5, 7⟩)], [(0, ⟨2, 4, 9⟩)], [(0, 3)], [], [], [], [], [], [], [5]⟩ :
          Assets).cache x.id).isSome →
        x.tyId ∈ (⟨[(0, ⟨5, 7⟩)], [(0, ⟨2, 4, 9⟩)], [(0, 3)], [], [], [], [], [], [], [5]⟩ :
          Assets).write_functions) ∧
     ((⟨[(0, ⟨5, 7⟩)], [(0, ⟨2, 4, 9⟩)], [(0, 3)], [], [], [], [], [], [], [5]⟩ :
        Assets).load_dirty.map (fun x => x.id)).Nodup) ∧
    (alLookup (Assets.get_mut ⟨0, 5⟩
        (⟨[(0, ⟨5, 7⟩)], [(0, ⟨2, 4, 9⟩)], [(0, 3)], [], [], [], [], [], [], [5]⟩ :
          Assets)).2.render_cache (⟨0, 5⟩ : AssetHandle).id = none ∧
     (⟨0, 5⟩ : AssetHandle) ∈ (Assets.get_mut ⟨0, 5⟩
        (⟨[(0, ⟨5, 7⟩)], [(0, ⟨2, 4, 9⟩)], [(0, 3)], [], [], [], [], [], [], [5]⟩ :
          Assets)).2.load_dirty ∧
     (∃ s' evs, Assets.poll_write (fun _ v _ => v) (Assets.get_mut ⟨0, 5⟩
          (⟨[(0, ⟨5, 7⟩)], [(0, ⟨2, 4, 9⟩)], [(0, 3)], [], [], [], [], [], [], [5]⟩ :
            Assets)).2 = Except.ok (s', evs) ∧
       ((∃ ev ∈ evs, ev.hid = (⟨0, 5⟩ : AssetHandle).id) ↔
         (alLookup (⟨[(0, ⟨5, 7⟩)], [(0, ⟨2, 4, 9⟩)], [(0, 3)], [], [], [], [], [], [], [5]⟩ :
           Assets).load_handles (⟨0, 5⟩ : AssetHandle).id).isSome)) ∧
     (∀ gty : Nat, ∀ gconv : Nat → Nat → Nat, ∀ params arcCtr : Nat,
       (Assets.convert gty gconv ⟨0, 5⟩ params arcCtr (Assets.get_mut ⟨0, 5⟩
          (⟨[(0, ⟨5, 7⟩)], [(0, ⟨2, 4, 9⟩)], [(0, 3)], [], [], [], [], [], [], [5]⟩ :
            Assets)).2).2.2.2 = true ∧
       (Assets.convert gty gconv ⟨0, 5⟩ params arcCtr (Assets.get_mut ⟨0, 5⟩
          (⟨[(0, ⟨5, 7⟩)], [(0, ⟨2, 4, 9⟩)], [(0, 3)], [], [], [], [], [], [], [5]⟩ :
            Assets)).2).1 =
         Except.ok (some ⟨arcCtr, gty, gconv (⟨5, 7⟩ : DynAsset).val params⟩))) :=
  ⟨⟨rfl, rfl, by decide, by decide, by decide⟩,
   getMut_dirty_and_invalidate (fun _ v _ => v) _ ⟨0, 5⟩ ⟨5, 7⟩ rfl rfl
     (by decide) (by decide) (by decide)⟩

/-!
Reachability invariant.  Claims C5, C7 and C8 are about states the program
can actually be in, so we prove an invariant of every state reachable through
the public API from process start: issued handle ids are strictly increasing
(and below the shared counter), the dirty set only holds issued handles,
binding a write path or a watch always registers the corresponding per-type
function first, and the render cache only caches handles whose source value
is present.
-/

structure InvA (s : Assets) (issued : List AssetHandle) (ctr : Nat) : Prop where
  idBound : ∀ h ∈ issued, h.id < ctr
  sorted : List.Pairwise (fun a b => a.id < b.id) issued
  lhBound : ∀ e ∈ s.load_handles, e.1 < ctr
  writeReg : ∀ h ∈ issued, (alLookup s.load_handles h.id).isSome →
    h.tyId ∈ s.write_functions
  dirtyIssued : ∀ h ∈ s.load_dirty, h ∈ issued
  reloadReg : ∀ path hs, alLookup s.reload_handles path = some hs →
    ∀ h ∈ hs, h.tyId ∈ s.reload_functions
  renderSub : ∀ k, (alLookup s.render_cache k).isSome →
    (alLookup s.cache k).isSome

theorem pairwise_id_inj {l : List AssetHandle}
    (hp : List.Pairwise (fun a b => a.id < b.id) l) :
    ∀ h1 ∈ l, ∀ h2 ∈ l, h1.id = h2.id → h1 = h2 := by
  induction l with
  | nil => simp
  | cons x rest ih =>
    rw [List.pairwise_cons] at hp
    obtain ⟨hx, hp'⟩ := hp
    intro h1 hh1 h2 hh2 heq
    rcases List.mem_cons.mp hh1 with rfl | h1r
    · rcases List.mem_cons.mp hh2 with rfl | h2r
      · rfl
      · exact absurd heq (Nat.ne_of_lt (hx h2 h2r))
    · rcases List.mem_cons.mp hh2 with rfl | h2r
      · exact absurd heq.symm (Nat.ne_of_lt (hx h1 h1r))
      · exact ih hp' h1 h1r h2 h2r heq

/-- Transfer the invariant along a state change that does not touch any of
the fields it mentions (channel, in-flight pool and similar updates). -/
theorem invA_of_fields {s s' : Assets} {issued : List AssetHandle} {ctr : Nat}
    (inv : InvA s issued ctr)
    (h1 : s'.cache = s.cache) (h2 : s'.render_cache = s.render_cache)
    (h3 : s'.load_handles = s.load_handles) (h4 : s'.load_dirty = s.load_dirty)
    (h5 : s'.reload_functions = s.reload_functions)
    (h6 : s'.reload_handles = s.reload_handles)
    (h7 : s'.write_functions = s.write_functions) : InvA s' issued ctr := by
  refine ⟨inv.idBound, inv.sorted, ?_, ?_, ?_, ?_, ?_⟩
  · rw [h3]; exact inv.lhBound
  · rw [h3, h7]; exact inv.writeReg
  · rw [h4]; exact inv.dirtyIssued
  · rw [h6, h5]; exact inv.reloadReg
  · rw [h2, h1]; exact inv.renderSub

theorem invA_init : InvA Assets.init [] 0 := by
  refine ⟨?_, ?_, ?_, ?_, ?_, ?_, ?_⟩ <;> simp [Assets.init, alLookup]

/-- Allocating a fresh handle (`AssetHandle::new` on the shared counter)
preserves the invariant: the new id is the counter value, strictly above
every id in the process. -/
theorem invA_fresh {s : Assets} {issued : List AssetHandle} {ctr : Nat}
    (inv : InvA s issued ctr) (ty : Nat) :
    InvA s (issued ++ [⟨ctr, ty⟩]) (ctr + 1) := by
  refine ⟨?_, ?_, ?_, ?_, ?_, inv.reloadReg, inv.renderSub⟩
  · intro h hm
    rcases List.mem_append.mp hm with hm | hm
    · exact Nat.lt_succ_of_lt (inv.idBound h hm)
    · rcases List.mem_singleton.mp hm with rfl
      exact Nat.lt_succ_self _
  · rw [List.pairwise_append]
    refine ⟨inv.sorted, List.pairwise_singleton _ _, ?_⟩
    intro a ha b hb
    rcases List.mem_singleton.mp hb with rfl
    exact inv.idBound a ha
  · exact fun e he => Nat.lt_succ_of_lt (inv.lhBound e he)
  · intro h hm hs
    rcases List.mem_append.mp hm with hm | hm
    · exact inv.writeReg h hm hs
    · rcases List.mem_singleton.mp hm with rfl
      rw [alLookup_none_of_big inv.lhBound] at hs
      cases hs
  · exact fun h hm => List.mem_append_left _ (inv.dirtyIssued h hm)

/-- Inserting a value into the store preserves the invariant. -/
theorem invA_cacheInsert {s : Assets} {issued : List AssetHandle} {ctr : Nat}
    (inv : InvA s issued ctr) (k : Nat) (v : DynAsset) :
    InvA { s with cache := alInsert k v s.cache } issued ctr := by
  refine ⟨inv.idBound, inv.sorted, inv.lhBound, inv.writeReg, inv.dirtyIssued,
    inv.reloadReg, ?_⟩
  intro k' hk'
  exact alLookup_alInsert_isSome _ _ (inv.renderSub k' hk')

/-- Method `Assets::watch` preserves the invariant: the pushed handle's load
function is registered in the same call. -/
theorem invA_watch {s : Assets} {issued : List AssetHandle} {ctr : Nat}
    (inv : InvA s issued ctr) (h : AssetHandle) (path : Nat) :
    InvA (s.watch h path) issued ctr := by
  refine ⟨inv.idBound, inv.sorted, inv.lhBound, inv.writeReg, inv.dirtyIssued,
    ?_, inv.renderSub⟩
  intro path' hs' hlook x hx
  show x.tyId ∈ regInsert h.tyId s.reload_functions
  by_cases hp : path' = path
  · subst hp
    rw [show (s.watch h path').reload_handles =
        alInsert path' ((alLookup s.reload_handles path').getD [] ++ [h])
          s.reload_handles from rfl,
      alLookup_alInsert_self] at hlook
    injection hlook with hlook
    subst hlook
    rcases List.mem_append.mp hx with hx | hx
    · cases hold : alLookup s.reload_handles path' with
      | none => rw [hold] at hx; simp at hx
      | some old =>
        rw [hold] at hx
        exact mem_regInsert_of_mem (inv.reloadReg path' old hold x hx)
    · rcases List.mem_singleton.mp hx with rfl
      exact mem_regInsert_self _ _
  · rw [show (s.watch h path).reload_handles =
        alInsert path ((alLookup s.reload_handles path).getD [] ++ [h])
          s.reload_handles from rfl,
      alLookup_alInsert_ne _ _ hp] at hlook
    exact mem_regInsert_of_mem (inv.reloadReg path' hs' hlook x hx)

/-- Method `Assets::write` preserves the invariant, provided the bound handle is an
issued one with id below the counter: the write function for its type is
registered in the same call. -/
theorem invA_write {s : Assets} {issued : List AssetHandle} {ctr : Nat}
    (inv : InvA s issued ctr) (h : AssetHandle) (path : Nat)
    (hmem : h ∈ issued) :
    InvA (s.write h path) issued ctr := by
  refine ⟨inv.idBound, inv.sorted, ?_, ?_, inv.dirtyIssued, inv.reloadReg,
    inv.renderSub⟩
  · intro e he
    rcases mem_alInsert he with rfl | he
    · exact inv.idBound h hmem
    · exact inv.lhBound e he
  · intro x hx hlook
    show x.tyId ∈ regInsert h.tyId s.write_functions
    by_cases hid : x.id = h.id
    · have hxh : x = h := pairwise_id_inj inv.sorted x hx h hmem hid
      subst hxh
      exact mem_regInsert_self _ _
    · rw [show (s.write h path).load_handles =
          alInsert h.id path s.load_handles from rfl,
        alLookup_alInsert_ne _ _ hid] at hlook
      exact mem_regInsert_of_mem (inv.writeReg x hx hlook)

/-- Method `Assets::get_mut` preserves the invariant when called with an issued
handle (the only handles a caller can hold). -/
theorem invA_getMut {s : Assets} {issued : List AssetHandle} {ctr : Nat}
    (inv : InvA s issued ctr) (h : AssetHandle) (hmem : h ∈ issued) :
    InvA (Assets.get_mut h s).2 issued ctr := by
  refine ⟨inv.idBound, inv.sorted, inv.lhBound, inv.writeReg, ?_, inv.reloadReg, ?_⟩
  · intro x hx
    rcases mem_dirtyInsert hx with rfl | hx
    · exact hmem
    · exact inv.dirtyIssued x hx
  · intro k hk
    exact inv.renderSub k (alLookup_alRemove_isSome _ hk)

/-- Mutation through the `get_mut` reference preserves the invariant. -/
theorem invA_getMutSet {s : Assets} {issued : List AssetHandle} {ctr : Nat}
    (inv : InvA s issued ctr) (h : AssetHandle) (v : Nat) (hmem : h ∈ issued) :
    InvA (Assets.get_mut_set h v s) issued ctr := by
  have base := invA_getMut inv h hmem
  simp only [Assets.get_mut_set]
  rcases hres : Assets.get_mut h s with ⟨res, s'⟩
  have hs' : s' = (Assets.get_mut h s).2 := by rw [hres]
  rw [← hs'] at base
  rcases res with e | o
  · exact base
  · rcases o with _ | w
    · exact base
    · exact invA_cacheInsert base h.id ⟨h.tyId, v⟩

theorem get_ok_some_isSome {h : AssetHandle} {s : Assets} {v : Nat}
    (hg : Assets.get h s = Except.ok (some v)) :
    (alLookup s.cache h.id).isSome := by
  unfold Assets.get at hg
  cases hl : alLookup s.cache h.id with
  | none => rw [hl] at hg; simp at hg
  | some a => simp

/-- The state left behind by `Assets::convert`: unchanged, unless the source
was present and no derived entry existed, in which case the new derived entry
is inserted. -/
theorem convert_state (gty : Nat) (gconv : Nat → Nat → Nat) (h : AssetHandle)
    (params arcCtr : Nat) (s : Assets) :
    (Assets.convert gty gconv h params arcCtr s).2.2.1 = s ∨
    (∃ v, Assets.get h s = Except.ok (some v) ∧
      (Assets.convert gty gconv h params arcCtr s).2.2.1 =
        { s with render_cache :=
            alInsert h.id ⟨arcCtr, gty, gconv v params⟩ s.render_cache }) := by
  by_cases hrc : (alLookup s.render_cache h.id).isSome
  · left
    simp only [Assets.convert, if_pos hrc]
  · cases hget : Assets.get h s with
    | error e =>
      left
      simp only [Assets.convert, if_neg hrc, hget]
    | ok o =>
      cases o with
      | none =>
        left
        simp only [Assets.convert, if_neg hrc, hget]
      | some v =>
        right
        exact ⟨v, rfl, by simp only [Assets.convert, if_neg hrc, hget]⟩

/-- Method `Assets::convert` preserves the invariant: a render-cache entry is only
created after the source value was found present. -/
theorem invA_convert {s : Assets} {issued : List AssetHandle} {ctr : Nat}
    (inv : InvA s issued ctr) (gty : Nat) (gconv : Nat → Nat → Nat)
    (h : AssetHandle) (params arcCtr : Nat) :
    InvA (Assets.convert gty gconv h params arcCtr s).2.2.1 issued ctr := by
  rcases convert_state gty gconv h params arcCtr s with heq | ⟨v, hget, heq⟩
  · rw [heq]; exact inv
  · rw [heq]
    have hsome := get_ok_some_isSome hget
    refine ⟨inv.idBound, inv.sorted, inv.lhBound, inv.writeReg,
      inv.dirtyIssued, inv.reloadReg, ?_⟩
    intro k hk
    by_cases hkh : k = h.id
    · subst hkh; exact hsome
    · have hk' : (alLookup
          (alInsert h.id ⟨arcCtr, gty, gconv v params⟩ s.render_cache) k).isSome :=
        hk
      rw [alLookup_alInsert_ne _ _ hkh] at hk'
      exact inv.renderSub k hk'

/-- Draining the loaded channel preserves the render-cache/store inclusion:
each message inserts into the store and removes from the render cache. -/
theorem foldLoaded_renderSub :
    ∀ (q : List (Nat × DynAsset)) (c : List (Nat × DynAsset))
      (r : List (Nat × ArcHandle)),
      (∀ k, (alLookup r k).isSome → (alLookup c k).isSome) →
      ∀ k, (alLookup (q.foldl applyLoaded (c, r)).2 k).isSome →
        (alLookup (q.foldl applyLoaded (c, r)).1 k).isSome := by
  intro q
  induction q with
  | nil => intro c r hcr k; exact hcr k
  | cons m rest ih =>
    intro c r hcr
    rw [List.foldl_cons]
    simp only [applyLoaded]
    apply ih
    intro k' hk'
    by_cases hk'm : k' = m.1
    · subst hk'm
      rw [alLookup_alRemove_self] at hk'
      simp at hk'
    · rw [alLookup_alRemove_ne _ hk'm] at hk'
      exact alLookup_alInsert_isSome _ _ (hcr k' hk')

theorem invA_pollLoaded {s : Assets} {issued : List AssetHandle} {ctr : Nat}
    (inv : InvA s issued ctr) : InvA s.poll_loaded issued ctr := by
  refine ⟨inv.idBound, inv.sorted, inv.lhBound, inv.writeReg, inv.dirtyIssued,
    inv.reloadReg, ?_⟩
  intro k hk
  exact foldLoaded_renderSub s.load_channel s.cache s.render_cache inv.renderSub k hk

/-- The `poll_write` loop only updates existing store entries, so presence in
the store is preserved. -/
theorem pollWriteGo_cache_isSome (tyWrite : Nat → Nat → Nat → Nat)
    (wfns : List Nat) (lh : List (Nat × Nat)) :
    ∀ (L : List AssetHandle) (c : List (Nat × DynAsset)) (evs : List WriteEvent)
      (c' : List (Nat × DynAsset)) (evs' : List WriteEvent),
      pollWriteGo tyWrite wfns lh L c evs = Except.ok (c', evs') →
      ∀ k, (alLookup c k).isSome → (alLookup c' k).isSome := by
  intro L
  induction L with
  | nil =>
    intro c evs c' evs' hrun k hk
    simp only [pollWriteGo, Except.ok.injEq, Prod.mk.injEq] at hrun
    rw [← hrun.1]
    exact hk
  | cons x rest ih =>
    intro c evs c' evs' hrun k hk
    cases hl : alLookup lh x.id with
    | none =>
      simp only [pollWriteGo, hl] at hrun
      exact ih _ _ _ _ hrun k hk
    | some p =>
      cases hc : alLookup c x.id with
      | none =>
        simp only [pollWriteGo, hl, hc] at hrun
        exact ih _ _ _ _ hrun k hk
      | some a =>
        by_cases hw : x.tyId ∈ wfns
        · simp only [pollWriteGo, hl, hc, if_pos hw] at hrun
          exact ih _ _ _ _ hrun k (alLookup_alInsert_isSome _ _ hk)
        · simp only [pollWriteGo, hl, hc, if_neg hw] at hrun
          cases hrun

/-- The `poll_write` loop succeeds whenever every dirty handle with a bound
path has a registered write function. -/
theorem pollWriteGo_ok (tyWrite : Nat → Nat → Nat → Nat) (wfns : List Nat)
    (lh : List (Nat × Nat)) :
    ∀ (L : List AssetHandle) (c : List (Nat × DynAsset)) (evs : List WriteEvent),
      (∀ x ∈ L, (alLookup lh x.id).isSome → x.tyId ∈ wfns) →
      ∃ r, pollWriteGo tyWrite wfns lh L c evs = Except.ok r := by
  intro L
  induction L with
  | nil => intro c evs _; exact ⟨(c, evs), rfl⟩
  | cons x rest ih =>
    intro c evs hcond
    have hrest := fun x' hx' => hcond x' (List.mem_cons_of_mem _ hx')
    cases hl : alLookup lh x.id with
    | none =>
      obtain ⟨r, hr⟩ := ih c evs hrest
      exact ⟨r, by simp only [pollWriteGo, hl]; exact hr⟩
    | some p =>
      have hw : x.tyId ∈ wfns := hcond x (List.mem_cons_self _ _) (by simp [hl])
      cases hc : alLookup c x.id with
      | none =>
        obtain ⟨r, hr⟩ := ih c evs hrest
        exact ⟨r, by simp only [pollWriteGo, hl, hc]; exact hr⟩
      | some a =>
        obtain ⟨r, hr⟩ := ih (alInsert x.id ⟨a.ty, tyWrite x.tyId a.val p⟩ c)
          (evs ++ [⟨x.id, x.tyId, a.val, p⟩]) hrest
        exact ⟨r, by simp only [pollWriteGo, hl, hc, if_pos hw]; exact hr⟩

theorem invA_pollWrite {s : Assets} {issued : List AssetHandle} {ctr : Nat}
    (inv : InvA s issued ctr) (tyWrite : Nat → Nat → Nat → Nat) :
    ∀ s' evs, Assets.poll_write tyWrite s = Except.ok (s', evs) →
      InvA s' issued ctr := by
  intro s' evs hok
  unfold Assets.poll_write at hok
  cases hgo : pollWriteGo tyWrite s.write_functions s.load_handles s.load_dirty
      s.cache [] with
  | error e => rw [hgo] at hok; cases hok
  | ok cr =>
    obtain ⟨c', evs'⟩ := cr
    rw [hgo] at hok
    simp only [Except.ok.injEq, Prod.mk.injEq] at hok
    obtain ⟨hs', _⟩ := hok
    rw [← hs']
    refine ⟨inv.idBound, inv.sorted, inv.lhBound, inv.writeReg, ?_, inv.reloadReg, ?_⟩
    · intro x hx
      simp at hx
    · intro k hk
      exact pollWriteGo_cache_isSome tyWrite s.write_functions s.load_handles
        s.load_dirty s.cache [] c' evs' hgo k (inv.renderSub k hk)

/-- The reload of one path's handle list succeeds when all their types have a
registered load function, and preserves the render-cache/store inclusion. -/
theorem reloadOne_ok (tyLoad : Nat → Nat → Nat) (rfns : List Nat) (path : Nat) :
    ∀ (hs : List AssetHandle) (cr : List (Nat × DynAsset) × List (Nat × ArcHandle)),
      (∀ x ∈ hs, x.tyId ∈ rfns) →
      ∃ cr', reloadOne tyLoad rfns path hs cr = Except.ok cr' := by
  intro hs
  induction hs with
  | nil => intro cr _; exact ⟨cr, rfl⟩
  | cons x rest ih =>
    intro cr hcond
    obtain ⟨c, r⟩ := cr
    have hw : x.tyId ∈ rfns := hcond x (List.mem_cons_self _ _)
    obtain ⟨cr', hcr'⟩ := ih (alInsert x.id ⟨x.tyId, tyLoad x.tyId path⟩ c,
      alRemove x.id r) (fun x' hx' => hcond x' (List.mem_cons_of_mem _ hx'))
    exact ⟨cr', by simp only [reloadOne, if_pos hw]; exact hcr'⟩

theorem reloadOne_renderSub (tyLoad : Nat → Nat → Nat) (rfns : List Nat) (path : Nat) :
    ∀ (hs : List AssetHandle) (cr cr' : List (Nat × DynAsset) × List (Nat × ArcHandle)),
      reloadOne tyLoad rfns path hs cr = Except.ok cr' →
      (∀ k, (alLookup cr.2 k).isSome → (alLookup cr.1 k).isSome) →
      ∀ k, (alLookup cr'.2 k).isSome → (alLookup cr'.1 k).isSome := by
  intro hs
  induction hs with
  | nil =>
    intro cr cr' hrun hsub
    simp only [reloadOne, Except.ok.injEq] at hrun
    rw [← hrun]
    exact hsub
  | cons x rest ih =>
    intro cr cr' hrun hsub
    obtain ⟨c, r⟩ := cr
    by_cases hw : x.tyId ∈ rfns
    · simp only [reloadOne, if_pos hw] at hrun
      refine ih _ cr' hrun ?_
      intro k hk
      by_cases hkx : k = x.id
      · subst hkx
        rw [alLookup_alRemove_self] at hk
        simp at hk
      · rw [alLookup_alRemove_ne _ hkx] at hk
        exact alLookup_alInsert_isSome _ _ (hsub k hk)
    · simp only [reloadOne, if_neg hw] at hrun
      cases hrun

theorem pollReloadGo_ok (tyLoad : Nat → Nat → Nat) (rfns : List Nat)
    (rh : List (Nat × List AssetHandle)) :
    ∀ (q : List Nat) (cr : List (Nat × DynAsset) × List (Nat × ArcHandle)),
      (∀ path hs, alLookup rh path = some hs → ∀ x ∈ hs, x.tyId ∈ rfns) →
      ∃ cr', pollReloadGo tyLoad rfns rh q cr = Except.ok cr' := by
  intro q
  induction q with
  | nil => intro cr _; exact ⟨cr, rfl⟩
  | cons path rest ih =>
    intro cr hcond
    cases hl : alLookup rh path with
    | none =>
      obtain ⟨cr', hcr'⟩ := ih cr hcond
      exact ⟨cr', by simp only [pollReloadGo, hl]; exact hcr'⟩
    | some hs =>
      obtain ⟨cr1, hcr1⟩ := reloadOne_ok tyLoad rfns path hs cr (hcond path hs hl)
      obtain ⟨cr', hcr'⟩ := ih cr1 hcond
      exact ⟨cr', by simp only [pollReloadGo, hl, hcr1]; exact hcr'⟩

theorem pollReloadGo_renderSub (tyLoad : Nat → Nat → Nat) (rfns : List Nat)
    (rh : List (Nat × List AssetHandle)) :
    ∀ (q : List Nat) (cr cr' : List (Nat × DynAsset) × List (Nat × ArcHandle)),
      pollReloadGo tyLoad rfns rh q cr = Except.ok cr' →
      (∀ k, (alLookup cr.2 k).isSome → (alLookup cr.1 k).isSome) →
      ∀ k, (alLookup cr'.2 k).isSome → (alLookup cr'.1 k).isSome := by
  intro q
  induction q with
  | nil =>
    intro cr cr' hrun hsub
    simp only [pollReloadGo, Except.ok.injEq] at hrun
    rw [← hrun]
    exact hsub
  | cons path rest ih =>
    intro cr cr' hrun hsub
    cases hl : alLookup rh path with
    | none =>
      simp only [pollReloadGo, hl] at hrun
      exact ih _ _ hrun hsub
    | some hs =>
      simp only [pollReloadGo, hl] at hrun
      cases hone : reloadOne tyLoad rfns path hs cr with
      | error e => rw [hone] at hrun; cases hrun
      | ok cr1 =>
        rw [hone] at hrun
        exact ih _ _ hrun (reloadOne_renderSub tyLoad rfns path hs cr cr1 hone hsub)

theorem invA_pollReload {s : Assets} {issued : List AssetHandle} {ctr : Nat}
    (inv : InvA s issued ctr) (tyLoad : Nat → Nat → Nat) :
    ∀ s', Assets.poll_reload tyLoad s = Except.ok s' → InvA s' issued ctr := by
  intro s' hok
  unfold Assets.poll_reload at hok
  cases hgo : pollReloadGo tyLoad s.reload_functions s.reload_handles
      s.reload_channel (s.cache, s.render_cache) with
  | error e => rw [hgo] at hok; cases hok
  | ok cr =>
    rw [hgo] at hok
    simp only [Except.ok.injEq] at hok
    rw [← hok]
    refine ⟨inv.idBound, inv.sorted, inv.lhBound, inv.writeReg, inv.dirtyIssued,
      inv.reloadReg, ?_⟩
    intro k hk
    exact pollReloadGo_renderSub tyLoad s.reload_functions s.reload_handles
      s.reload_channel (s.cache, s.render_cache) cr hgo inv.renderSub k hk

/-- Every single API call or environment event preserves the invariant. -/
theorem invA_step (tyLoad : Nat → Nat → Nat) (tyWrite : Nat → Nat → Nat → Nat)
    (p : Proc) (op : Op) (inv : InvA p.assets p.issued p.ctr) :
    InvA (step tyLoad tyWrite p op).assets (step tyLoad tyWrite p op).issued
      (step tyLoad tyWrite p op).ctr := by
  cases op with
  | insertOp ty v =>
    exact invA_cacheInsert (invA_fresh inv ty) p.ctr ⟨ty, v⟩
  | loadOp ty path watchFlag writeFlag syncFlag =>
    have hmem : (⟨p.ctr, ty⟩ : AssetHandle) ∈ p.issued ++ [⟨p.ctr, ty⟩] :=
      List.mem_append_right _ (List.mem_singleton.mpr rfl)
    cases syncFlag with
    | true =>
      have base : InvA
          { p.assets with cache := alInsert p.ctr ⟨ty, tyLoad ty path⟩ p.assets.cache }
          (p.issued ++ [⟨p.ctr, ty⟩]) (p.ctr + 1) :=
        invA_cacheInsert (invA_fresh inv ty) p.ctr ⟨ty, tyLoad ty path⟩
      cases watchFlag with
      | true =>
        cases writeFlag with
        | true => exact invA_write (invA_watch base ⟨p.ctr, ty⟩ path) ⟨p.ctr, ty⟩ path hmem
        | false => exact invA_watch base ⟨p.ctr, ty⟩ path
      | false =>
        cases writeFlag with
        | true => exact invA_write base ⟨p.ctr, ty⟩ path hmem
        | false => exact base
    | false =>
      have base : InvA
          { p.assets with inflight := p.assets.inflight ++ [(p.ctr, ty, path)] }
          (p.issued ++ [⟨p.ctr, ty⟩]) (p.ctr + 1) :=
        invA_of_fields (invA_fresh inv ty) rfl rfl rfl rfl rfl rfl rfl
      cases watchFlag with
      | true =>
        cases writeFlag with
        | true => exact invA_write (invA_watch base ⟨p.ctr, ty⟩ path) ⟨p.ctr, ty⟩ path hmem
        | false => exact invA_watch base ⟨p.ctr, ty⟩ path
      | false =>
        cases writeFlag with
        | true => exact invA_write base ⟨p.ctr, ty⟩ path hmem
        | false => exact base
  | getOp i =>
    simp only [step]
    cases p.issued.get? i <;> exact inv
  | getMutOp i =>
    simp only [step]
    cases hi : p.issued.get? i with
    | none => exact inv
    | some h => exact invA_getMut inv h (List.get?_mem hi)
  | getMutSetOp i v =>
    simp only [step]
    cases hi : p.issued.get? i with
    | none => exact inv
    | some h => exact invA_getMutSet inv h v (List.get?_mem hi)
  | convertOp gty gconv i params =>
    simp only [step]
    cases hi : p.issued.get? i with
    | none => exact inv
    | some h => exact invA_convert inv gty gconv h params p.arcCtr
  | pollLoadedOp => exact invA_pollLoaded inv
  | pollWriteOp =>
    simp only [step]
    cases hres : Assets.poll_write tyWrite p.assets with
    | error e => exact inv
    | ok pr =>
      obtain ⟨s', evs⟩ := pr
      exact invA_pollWrite inv tyWrite s' evs hres
  | pollReloadOp =>
    simp only [step]
    cases hres : Assets.poll_reload tyLoad p.assets with
    | error e => exact inv
    | ok s' => exact invA_pollReload inv tyLoad s' hres
  | forceReloadOp path =>
    exact invA_of_fields inv rfl rfl rfl rfl rfl rfl rfl
  | deliverOp i =>
    simp only [step, Assets.deliver]
    cases p.assets.inflight.get? i with
    | none => exact inv
    | some f => exact invA_of_fields inv rfl rfl rfl rfl rfl rfl rfl
  | otherRegistryOp ty => exact invA_fresh inv ty

theorem invA_run_aux (tyLoad : Nat → Nat → Nat) (tyWrite : Nat → Nat → Nat → Nat) :
    ∀ (ops : List Op) (p : Proc), InvA p.assets p.issued p.ctr →
      InvA (ops.foldl (step tyLoad tyWrite) p).assets
        (ops.foldl (step tyLoad tyWrite) p).issued
        (ops.foldl (step tyLoad tyWrite) p).ctr := by
  intro ops
  induction ops with
  | nil => intro p hp; exact hp
  | cons op rest ih =>
    intro p hp
    rw [List.foldl_cons]
    exact ih _ (invA_step tyLoad tyWrite p op hp)

/-- Every state reachable through the public API satisfies the invariant. -/
theorem invA_run (tyLoad : Nat → Nat → Nat) (tyWrite : Nat → Nat → Nat → Nat)
    (ops : List Op) :
    InvA (run tyLoad tyWrite ops).assets (run tyLoad tyWrite ops).issued
      (run tyLoad tyWrite ops).ctr :=
  invA_run_aux tyLoad tyWrite ops Proc.init invA_init

/-- C5 (amended): in any state reachable through the public API, neither
`poll_write` nor `poll_reload` can encounter a dirty or reloading handle
whose type lacks a registered write/load function — binding a write path or a
watch registers the per-type function in the same call — so both poll
operations complete their whole batch without panicking.  On a raw state
where a function is missing (unreachable through the API), the `expect` calls
panic and abort the batch instead of reporting and continuing, which is what
the counterexample shows. -/
theorem polls_never_hit_missing_fn (tyLoad : Nat → Nat → Nat)
    (tyWrite : Nat → Nat → Nat → Nat) (ops : List Op) :
    exceptOk (Assets.poll_write tyWrite (run tyLoad tyWrite ops).assets) = true ∧
    exceptOk (Assets.poll_reload tyLoad (run tyLoad tyWrite ops).assets) = true := by
  have inv := invA_run tyLoad tyWrite ops
  constructor
  · obtain ⟨r, hr⟩ := pollWriteGo_ok tyWrite
      (run tyLoad tyWrite ops).assets.write_functions
      (run tyLoad tyWrite ops).assets.load_handles
      (run tyLoad tyWrite ops).assets.load_dirty
      (run tyLoad tyWrite ops).assets.cache []
      (fun x hx hsome => inv.writeReg x (inv.dirtyIssued x hx) hsome)
    obtain ⟨c', evs'⟩ := r
    simp [Assets.poll_write, hr, exceptOk]
  · obtain ⟨cr', hcr⟩ := pollReloadGo_ok tyLoad
      (run tyLoad tyWrite ops).assets.reload_functions
      (run tyLoad tyWrite ops).assets.reload_handles
      (run tyLoad tyWrite ops).assets.reload_channel
      ((run tyLoad tyWrite ops).assets.cache,
        (run tyLoad tyWrite ops).assets.render_cache)
      inv.reloadReg
    simp [Assets.poll_reload, hcr, exceptOk]

/-- C7: in any reachable state, for a handle whose store entry is absent
(never inserted, or an asynchronous load still pending), the derived cache
holds no entry for it either, and `convert` returns nothing without
panicking, invokes no conversion function, and leaves the state — in
particular the derived cache — completely unchanged. -/
theorem convert_absent_source_none (tyLoad : Nat → Nat → Nat)
    (tyWrite : Nat → Nat → Nat → Nat) (ops : List Op) (gty : Nat)
    (gconv : Nat → Nat → Nat) (h : AssetHandle) (params arcCtr : Nat)
    (habs : alLookup (run tyLoad tyWrite ops).assets.cache h.id = none) :
    alLookup (run tyLoad tyWrite ops).assets.render_cache h.id = none ∧
    Assets.convert gty gconv h params arcCtr (run tyLoad tyWrite ops).assets =
      (Except.ok none, arcCtr, (run tyLoad tyWrite ops).assets, false) := by
  have inv := invA_run tyLoad tyWrite ops
  have hrc : alLookup (run tyLoad tyWrite ops).assets.render_cache h.id = none := by
    cases hv : alLookup (run tyLoad tyWrite ops).assets.render_cache h.id with
    | none => rfl
    | some a =>
      have := inv.renderSub h.id (by simp [hv])
      rw [habs] at this
      simp at this
  refine ⟨hrc, ?_⟩
  simp [Assets.convert, Assets.get, hrc, habs]

/-- Witness for C7 at a concrete input: the freshly started process and
handle 0. -/
theorem convert_absent_source_none_witness :
    alLookup (run (fun _ _ => 0) (fun _ v _ => v) []).assets.cache
      ((⟨0, 0⟩ : AssetHandle)).id = none ∧
    (alLookup (run (fun _ _ => 0) (fun _ v _ => v) []).assets.render_cache
        ((⟨0, 0⟩ : AssetHandle)).id = none ∧
     Assets.convert 0 (fun v _ => v) ⟨0, 0⟩ 0 0
        (run (fun _ _ => 0) (fun _ v _ => v) []).assets =
       (Except.ok none, 0, (run (fun _ _ => 0) (fun _ v _ => v) []).assets, false)) :=
  ⟨rfl, convert_absent_source_none (fun _ _ => 0) (fun _ v _ => v) [] 0
    (fun v _ => v) ⟨0, 0⟩ 0 0 rfl⟩

/-- C8: along any sequence of `insert` and load calls — across one or more
registries of the same process, which share the `NEXT_ID` counter — the
issued handles carry strictly increasing ids (each new handle's id exceeds
every previously issued id), hence no two issued handles ever compare equal
under the id-based `PartialEq`. -/
theorem handles_unique (tyLoad : Nat → Nat → Nat)
    (tyWrite : Nat → Nat → Nat → Nat) (ops : List Op) :
    List.Pairwise (fun a b => a.id < b.id) (run tyLoad tyWrite ops).issued ∧
    List.Pairwise (fun a b => AssetHandle.peq a b = false)
      (run tyLoad tyWrite ops).issued := by
  have inv := invA_run tyLoad tyWrite ops
  refine ⟨inv.sorted, ?_⟩
  exact inv.sorted.imp (fun hab => by
    simp only [AssetHandle.peq]
    simpa using Nat.ne_of_lt hab)

end RustAssets
